import Mathlib

/-!
Verification development for the conlaunch service layer.

The TypeScript sources are shallowly embedded:
* JS numbers used as exact quantities (percentage shares, bps, wei amounts,
  SQLite REAL counters) are modelled as `ℚ`/`ℤ`; `Math.round` becomes
  `jsRound` (round half toward positive infinity).
* `bigint` on-chain amounts are `ℤ` (wei); `formatEther` becomes the exact
  division `formatEtherQ` (the decimal-string round trip is modelled as exact).
* Asynchronous external collaborators (Clanker SDK calls) are an explicit
  environment `ClankerEnv`; a call that throws is `Except.error`.
* The SQLite database is an explicit `DbState` value threaded through the
  claim functions.
-/

namespace ConLaunch

/-! ## Basic JS-value modelling -/

/-- JS `Math.round` on exact rationals: round half toward positive infinity. -/
def jsRound (q : ℚ) : ℤ := ⌊q + 1/2⌋

deriving instance DecidableEq for Except

/-- JS `String.prototype.toLowerCase` restricted to the ASCII range. -/
def lowerStr (s : String) : String := ⟨s.data.map Char.toLower⟩

/-- JS `String.prototype.toUpperCase` restricted to the ASCII range. -/
def upperStr (s : String) : String := ⟨s.data.map Char.toUpper⟩

/-- JS falsy-or-blank test: `!s || s.trim().length === 0`. -/
def isBlank (s : String) : Bool := s.data.all Char.isWhitespace

/-- Character class `[a-fA-F0-9]` of the address regex. -/
def isHexChar (c : Char) : Bool :=
  c.isDigit || (('a' ≤ c) && (c ≤ 'f')) || (('A' ≤ c) && (c ≤ 'F'))

/-- The wallet-address regex used throughout the sources: `^0x[a-fA-F0-9]\x7b40\x7d$`. -/
def isValidAddress (s : String) : Bool :=
  match s.data with
  | '0' :: 'x' :: rest => rest.length == 40 && rest.all isHexChar
  | _ => false

/-- JS `String.prototype.includes` on char lists. -/
def listIncludes (pat : List Char) : List Char → Bool
  | [] => pat.isEmpty
  | c :: rest => pat.isPrefixOf (c :: rest) || listIncludes pat rest

/-- JS `s.includes(pat)`. -/
def strIncludes (s pat : String) : Bool := listIncludes pat.data s.data

/-! ## Rate limiter (src/ratelimit.ts) -/

/-- `COOLDOWN_MS = 24 * 60 * 60 * 1000` from src/ratelimit.ts. -/
def COOLDOWN_MS : ℤ := 24 * 60 * 60 * 1000

/-- Result shape of `checkRateLimit`; `nextAllowedAt` holds the epoch-ms value
whose ISO rendering the code returns. -/
structure RateLimitResult where
  allowed : Bool
  nextAllowedAt : Option ℤ
  remainingMs : ℤ
  deriving DecidableEq, Repr

/-- `checkRateLimit` from src/ratelimit.ts. The SQL lookup of the requester's
most recent `deployed_at` is passed in as `lastLaunch` (epoch ms); `now` is
`Date.now()`. -/
def checkRateLimit (lastLaunch : Option ℤ) (now : ℤ) : RateLimitResult :=
  match lastLaunch with
  | none => ⟨true, none, 0⟩
  | some lastTime =>
    let elapsed := now - lastTime
    if COOLDOWN_MS ≤ elapsed then ⟨true, none, 0⟩
    else ⟨false, some (lastTime + COOLDOWN_MS), COOLDOWN_MS - elapsed⟩

/-! ## Data model (src/types.ts) -/

/-- The `token` scope of a reward recipient (`"Both" | "Paired" | "Clanker"`). -/
inductive TokenScope
  | Both
  | Paired
  | Clanker
  deriving DecidableEq, Repr

/-- `RewardRecipient` from src/types.ts. -/
structure RewardRecipient where
  recipient : String
  admin : String
  bps : ℤ
  token : TokenScope
  label : String
  deriving DecidableEq, Repr

/-- `FeeSplitEntry` from src/types.ts; the share is a percentage. -/
structure FeeSplitEntry where
  wallet : String
  share : ℚ
  role : String
  deriving DecidableEq, Repr

/-- The optional `vault` object of a `DeployRequest`. -/
structure VaultSpec where
  percentage : ℚ
  lockupDays : ℚ
  vestingDays : Option ℚ := none
  deriving DecidableEq, Repr

/-- The optional `fees` object of a `DeployRequest` (`ftype` models the `type`
field; `none`/empty string are JS-falsy). -/
structure FeesSpec where
  ftype : Option String := none
  bps : Option ℚ := none
  deriving DecidableEq, Repr

/-- `DeployRequest` from src/types.ts. Required string fields use `""` for the
JS-falsy absent value. -/
structure DeployRequest where
  name : String
  symbol : String
  clientWallet : String
  description : Option String := none
  image : Option String := none
  website : Option String := none
  twitter : Option String := none
  vault : Option VaultSpec := none
  fees : Option FeesSpec := none
  devBuyEth : Option ℚ := none
  feeSplit : Option (List FeeSplitEntry) := none
  deriving DecidableEq, Repr

/-- `DEFAULT_PLATFORM_FEE_BPS` from src/types.ts. -/
def DEFAULT_PLATFORM_FEE_BPS : ℤ := 2000

/-- `WETH_BASE` from src/types.ts. -/
def WETH_BASE : String := "0x4200000000000000000000000000000000000006"

/-! ## Reward allocation calculator (`buildRewardsConfig`, src/deployer.ts) -/

/-- The rejection cases of `buildRewardsConfig`; each constructor stands for one
of the four error strings the function can return. -/
inductive AllocationError
  | maxRecipients
  | invalidShare (share : ℚ) (role : String)
  | invalidWallet (role : String)
  | exceedsAllocation (usedBps clientMaxBps : ℤ)
  deriving DecidableEq, Repr

/-- A fee-split entry converted to its `RewardRecipient`, as pushed inside the
loop of `buildRewardsConfig`. -/
def splitRecipient (e : FeeSplitEntry) : RewardRecipient :=
  ⟨e.wallet, e.wallet, jsRound (e.share * 100), .Both, e.role⟩

/-- The residual recipient for the requester, labelled `"client"`. -/
def clientRecipient (wallet : String) (bps : ℤ) : RewardRecipient :=
  ⟨wallet, wallet, bps, .Both, "client"⟩

/-- The platform recipient appended last, labelled `"conlaunch"`. -/
def platformRecipient (wallet : String) (bps : ℤ) : RewardRecipient :=
  ⟨wallet, wallet, bps, .Both, "conlaunch"⟩

/-- The `for (const entry of req.feeSplit)` loop of `buildRewardsConfig`:
validates each entry in order (first failure wins), pushes its recipient and
accumulates `usedBps`. -/
def processFeeSplit : List FeeSplitEntry →
    Except AllocationError (List RewardRecipient × ℤ)
  | [] => .ok ([], 0)
  | e :: rest =>
    if e.share ≤ 0 ∨ 80 < e.share then .error (.invalidShare e.share e.role)
    else if !isValidAddress e.wallet then .error (.invalidWallet e.role)
    else
      match processFeeSplit rest with
      | .error err => .error err
      | .ok (recs, used) =>
        .ok (splitRecipient e :: recs, jsRound (e.share * 100) + used)

/-- The default two-way split returned when no fee-split list is supplied. -/
def defaultRecipients (clientWallet platformWallet : String)
    (platformFeeBps : ℤ) : List RewardRecipient :=
  [clientRecipient clientWallet (10000 - platformFeeBps),
   platformRecipient platformWallet platformFeeBps]

/-- `buildRewardsConfig` from src/deployer.ts. `platformFeeBps` is the
server-side `PLATFORM_FEE_BPS` (default 2000); the request carries no
platform-fee field. The source's local bindings `clientMaxBps`,
`primaryBps` and `withClient` are inlined. -/
def buildRewardsConfig (req : DeployRequest) (platformWallet : String)
    (platformFeeBps : ℤ) : Except AllocationError (List RewardRecipient) :=
  match req.feeSplit with
  | some entries =>
    if entries.isEmpty then
      .ok (defaultRecipients req.clientWallet platformWallet platformFeeBps)
    else if 5 < entries.length then .error .maxRecipients
    else
      match processFeeSplit entries with
      | .error err => .error err
      | .ok (recipients, usedBps) =>
        if 10000 - platformFeeBps < usedBps then
          .error (.exceedsAllocation usedBps (10000 - platformFeeBps))
        else if 0 < 10000 - platformFeeBps - usedBps then
          .ok (recipients ++
                [clientRecipient req.clientWallet (10000 - platformFeeBps - usedBps)] ++
                [platformRecipient platformWallet platformFeeBps])
        else
          .ok (recipients ++ [platformRecipient platformWallet platformFeeBps])
  | none => .ok (defaultRecipients req.clientWallet platformWallet platformFeeBps)

/-- Whether an allocation result is a rejection. -/
def allocFailed (r : Except AllocationError (List RewardRecipient)) : Bool :=
  match r with
  | .error _ => true
  | .ok _ => false

/-- The non-platform portion of the recipient list as dictated by section 4.2 of
the specification: explicit split entries in input order, then the requester's
residual when positive. Used to compare the code's output against the spec's
ordering and rounding policy. -/
def specNonPlatformPart (req : DeployRequest) (platformFeeBps : ℤ) :
    List RewardRecipient :=
  match req.feeSplit with
  | some entries =>
    if entries.isEmpty then [clientRecipient req.clientWallet (10000 - platformFeeBps)]
    else
      let explicit := entries.map splitRecipient
      let residual := 10000 - platformFeeBps - ((entries.map fun e => jsRound (e.share * 100)).sum)
      explicit ++ (if 0 < residual then [clientRecipient req.clientWallet residual] else [])
  | none => [clientRecipient req.clientWallet (10000 - platformFeeBps)]

/-! ## Request validator (`validateLaunch`, src/validation.ts) -/

/-- The error strings `validateLaunch` can push, one constructor per push
site, in source order. -/
inductive VError
  | nameRequired
  | nameTooLong
  | nameHtml
  | symbolRequired
  | symbolLength
  | symbolAlnum
  | walletRequired
  | walletInvalid
  | descTooLong
  | descHtml
  | imageInvalid
  | vaultPercentage
  | vaultLockup
  | feeDynamic
  | feeBpsRange
  | splitMax
  | splitTotal
  | splitWallet (role : String)
  | splitDuplicate (wallet : String)
  deriving DecidableEq, Repr

/-- The warning strings `validateLaunch` can push. -/
inductive VWarning
  | symbolExists
  | noImage
  | vaultHigh
  | noVault
  | feeHigh
  | scamName
  deriving DecidableEq, Repr

/-- Character class `[A-Za-z0-9]` of the symbol regex. -/
def isAlnumChar (c : Char) : Bool := c.isAlpha || c.isDigit

/-- The name block of `validateLaunch`: required, else over-100, else contains
a markup character — the three checks are chained with `else if`. -/
def nameErrors (name : String) : List VError :=
  if isBlank name then [.nameRequired]
  else if 100 < name.length then [.nameTooLong]
  else if strIncludes name "<" then [.nameHtml]
  else []

/-- The symbol block of `validateLaunch` (chained `else if`s). -/
def symbolErrors (symbol : String) : List VError :=
  if isBlank symbol then [.symbolRequired]
  else if symbol.length < 2 ∨ 10 < symbol.length then [.symbolLength]
  else if !symbol.data.all isAlnumChar then [.symbolAlnum]
  else []

/-- The wallet block of `validateLaunch`. -/
def walletErrors (wallet : String) : List VError :=
  if wallet = "" then [.walletRequired]
  else if !isValidAddress wallet then [.walletInvalid]
  else []

/-- The description block: both checks are guarded by JS truthiness of the
field and chained with `else if`. -/
def descriptionErrors (description : Option String) : List VError :=
  match description with
  | none => []
  | some d =>
    if d ≠ "" ∧ 1000 < d.length then [.descTooLong]
    else if d ≠ "" ∧ strIncludes d "<" then [.descHtml]
    else []

/-- The image block: a truthy image must be an https or ipfs reference. -/
def imageErrors (image : Option String) : List VError :=
  match image with
  | none => []
  | some i =>
    if i ≠ "" then
      if !(i.startsWith "https://" || i.startsWith "ipfs://") then
        [.imageInvalid]
      else []
    else []

/-- The vault block: percentage range and lockup checks are independent
(separate `if`s, not chained). -/
def vaultErrors (vault : Option VaultSpec) : List VError :=
  match vault with
  | none => []
  | some v =>
    (if v.percentage < 0 ∨ 90 < v.percentage then [.vaultPercentage] else []) ++
    (if v.lockupDays < 7 then [.vaultLockup] else [])

/-- The trading-fee block: a truthy non-static type is an error; a truthy bps
value out of [10, 500] is an error. -/
def feesErrors (fees : Option FeesSpec) : List VError :=
  (match fees with
   | some f =>
     match f.ftype with
     | some ty => if ty ≠ "" ∧ ty ≠ "static" then [.feeDynamic] else []
     | none => []
   | none => []) ++
  (match fees with
   | some f =>
     match f.bps with
     | some b => if b ≠ 0 then (if b < 10 ∨ 500 < b then [.feeBpsRange] else []) else []
     | none => []
   | none => [])

/-- The per-entry fee-split loop of `validateLaunch`: pushes an error per
malformed wallet and per duplicate (lower-cased) wallet, accumulating the set
of seen wallets. -/
def splitEntryErrors : List FeeSplitEntry → List String → List VError
  | [], _ => []
  | e :: rest, seen =>
    (if !isValidAddress e.wallet then [.splitWallet e.role] else []) ++
    (if seen.contains (lowerStr e.wallet) then [.splitDuplicate e.wallet] else []) ++
    splitEntryErrors rest (lowerStr e.wallet :: seen)

/-- The fee-split block: max five entries, total share at most 80, then the
per-entry wallet checks. All three sub-checks are independent. -/
def feeSplitErrors (feeSplit : Option (List FeeSplitEntry)) : List VError :=
  match feeSplit with
  | none => []
  | some entries =>
    if entries.isEmpty then []
    else
      (if 5 < entries.length then [.splitMax] else []) ++
      (if 80 < (entries.map FeeSplitEntry.share).sum then [.splitTotal] else []) ++
      splitEntryErrors entries []

/-- Warning: symbol already deployed (case-insensitive comparison against the
symbols of all stored tokens). -/
def symbolWarnings (symbol : String) (existingSymbols : List String) :
    List VWarning :=
  if existingSymbols.any (fun s => lowerStr s == lowerStr symbol) then
    [.symbolExists]
  else []

/-- Warning: missing image. -/
def imageWarnings (image : Option String) : List VWarning :=
  match image with
  | none => [.noImage]
  | some i => if i = "" then [.noImage] else []

/-- Warnings from the vault block: high percentage, or no vault at all. -/
def vaultWarnings (vault : Option VaultSpec) : List VWarning :=
  match vault with
  | none => [.noVault]
  | some v => if 50 < v.percentage then [.vaultHigh] else []

/-- Warning: trading fee above 200 bps. -/
def feesWarnings (fees : Option FeesSpec) : List VWarning :=
  match fees with
  | some f =>
    match f.bps with
    | some b => if b ≠ 0 ∧ 200 < b then [.feeHigh] else []
    | none => []
  | none => []

/-- The scam-keyword regex `/free|airdrop|guaranteed|100x|get rich/i`. -/
def hasScamKeyword (name : String) : Bool :=
  strIncludes (lowerStr name) "free" || strIncludes (lowerStr name) "airdrop" ||
  strIncludes (lowerStr name) "guaranteed" || strIncludes (lowerStr name) "100x" ||
  strIncludes (lowerStr name) "get rich"

/-- Warning: misleading name keywords (guarded by JS truthiness of name). -/
def scamWarnings (name : String) : List VWarning :=
  if name ≠ "" ∧ hasScamKeyword name then [.scamName] else []

/-- The `parsed` payload returned on a valid request. -/
structure ParsedLaunch where
  name : String
  symbol : String
  clientWallet : String
  platformFeeBps : ℤ
  vaultPercentage : ℚ
  estimatedGas : String
  deriving DecidableEq, Repr

/-- Result shape of `validateLaunch`. -/
structure ValidationResult where
  valid : Bool
  errors : List VError
  warnings : List VWarning
  parsed : Option ParsedLaunch
  deriving DecidableEq, Repr

/-- The full error array built by `validateLaunch`: the in-order concatenation
of the blocks above, exactly as the sequential `push` calls produce it. -/
def launchErrors (req : DeployRequest) : List VError :=
  nameErrors req.name ++ symbolErrors req.symbol ++
  walletErrors req.clientWallet ++ descriptionErrors req.description ++
  imageErrors req.image ++ vaultErrors req.vault ++ feesErrors req.fees ++
  feeSplitErrors req.feeSplit

/-- The full warning array built by `validateLaunch`, in push order. -/
def launchWarnings (req : DeployRequest) (existingSymbols : List String) :
    List VWarning :=
  symbolWarnings req.symbol existingSymbols ++ imageWarnings req.image ++
  vaultWarnings req.vault ++ feesWarnings req.fees ++ scamWarnings req.name

/-- `validateLaunch` from src/validation.ts. The `getAllTokens()` symbol
lookup is passed in as `existingSymbols`, and the `PLATFORM_FEE_BPS`
environment value as `platformFeeBps`. -/
def validateLaunch (req : DeployRequest) (existingSymbols : List String)
    (platformFeeBps : ℤ) : ValidationResult :=
  { valid := (launchErrors req).isEmpty
    errors := launchErrors req
    warnings := launchWarnings req existingSymbols
    parsed :=
      if (launchErrors req).isEmpty then
        some { name := req.name
               symbol := upperStr req.symbol
               clientWallet := req.clientWallet
               platformFeeBps := platformFeeBps
               vaultPercentage :=
                 match req.vault with
                 | some v => v.percentage
                 | none => 0
               estimatedGas := "~0.005-0.02 ETH" }
      else none }

/-! ## Database model (src/db.ts) -/

/-- A row of the `tokens` table (columns irrelevant to the claims omitted).
The `total_fees_claimed_*` REAL-cast counters are modelled as exact
rationals. -/
structure TokenRec where
  name : String
  symbol : String
  tokenAddress : String
  txHash : String
  clientWallet : String
  clientBps : ℤ
  platformBps : ℤ
  totalFeesClaimedWeth : ℚ
  totalFeesClaimedToken : ℚ
  status : String
  deriving DecidableEq, Repr

/-- A row of the append-only `fee_claims` table (claim timestamp omitted). -/
structure ClaimRow where
  tokenAddress : String
  txHash : String
  wethClaimed : ℚ
  tokenClaimed : ℚ
  deriving DecidableEq, Repr

/-- The SQLite database contents relevant to the claims. -/
structure DbState where
  tokens : List TokenRec
  claims : List ClaimRow
  deriving DecidableEq, Repr

/-- `getTokenByAddress` from src/db.ts. -/
def getTokenByAddress (db : DbState) (address : String) : Option TokenRec :=
  db.tokens.find? (fun t => t.tokenAddress == address)

/-- `getAllTokens(status)` from src/db.ts (the `ORDER BY deployed_at DESC`
sort is irrelevant to the claims and omitted). -/
def getAllTokens (db : DbState) (status : String) : List TokenRec :=
  db.tokens.filter (fun t => t.status == status)

/-- The return value of `recordFeeClaim` (`claimedAt` timestamp omitted). -/
structure FeeClaimResult where
  tokenAddress : String
  txHash : String
  wethClaimed : ℚ
  tokenClaimed : ℚ
  deriving DecidableEq, Repr

/-- `formatEther`: wei to ether, modelled as the exact rational quotient (the
decimal-string round trip through the database is treated as exact). -/
def formatEtherQ (wei : ℤ) : ℚ := (wei : ℚ) / 10 ^ 18

/-- `recordFeeClaim` from src/db.ts: appends one `fee_claims` row and adds
the two claimed amounts to the matching token's running counters. -/
def recordFeeClaim (db : DbState) (tokenAddress txHash : String)
    (wethClaimed tokenClaimed : ℚ) : FeeClaimResult × DbState :=
  (⟨tokenAddress, txHash, wethClaimed, tokenClaimed⟩,
   { tokens := db.tokens.map fun t =>
       if t.tokenAddress == tokenAddress then
         { t with
             totalFeesClaimedWeth := t.totalFeesClaimedWeth + wethClaimed
             totalFeesClaimedToken := t.totalFeesClaimedToken + tokenClaimed }
       else t
     claims := db.claims ++ [⟨tokenAddress, txHash, wethClaimed, tokenClaimed⟩] })

/-! ## External collaborator model (Clanker SDK calls) -/

/-- Outcome of an `availableRewards`/`claimRewards` call: `claimRewards` may
resolve with a transaction hash, resolve with an error value, or throw. -/
inductive ClaimOutcome
  | success (txHash : String)
  | failure (msg : String)
  | thrown (msg : String)
  deriving DecidableEq, Repr

/-- The external Clanker SDK as a deterministic environment.
`availableRewards token recipient` yields the claimable amount in wei, or
`Except.error` when the awaited call throws. -/
structure ClankerEnv where
  availableRewards : String → String → Except String ℤ
  claimRewards : String → String → ClaimOutcome

/-- One external SDK invocation, recorded in call order. -/
inductive ExtCall
  | avail (token recipient : String)
  | claim (token recipient : String)
  deriving DecidableEq, Repr

/-! ## Fee claim engine -/

/-- One asset leg of the `claimForWallet` helper inside `claimFees`
(src/mcp/server.ts, lines 608-679): query the claimable amount for `wallet`
on `asset`; when the query succeeds with a positive amount, invoke the claim
call; record `(txHash, amount)` only when the claim resolves without error.
Thrown queries and thrown or failed claims are caught and logged. The second
component is the trace of external calls made. -/
def claimAssetFor (env : ClankerEnv) (asset wallet : String) :
    Option (String × ℤ) × List ExtCall :=
  match env.availableRewards asset wallet with
  | .error _ => (none, [.avail asset wallet])
  | .ok available =>
    if 0 < available then
      match env.claimRewards asset wallet with
      | .success tx =>
        (some (tx, available), [.avail asset wallet, .claim asset wallet])
      | .failure _ => (none, [.avail asset wallet, .claim asset wallet])
      | .thrown _ => (none, [.avail asset wallet, .claim asset wallet])
    else (none, [.avail asset wallet])

/-- The transaction-hash contribution of one asset leg. -/
def legTxs (leg : Option (String × ℤ)) : List String :=
  match leg with
  | some p => [p.1]
  | none => []

/-- The claimed-amount contribution of one asset leg. -/
def legAmt (leg : Option (String × ℤ)) : ℤ :=
  match leg with
  | some p => p.2
  | none => 0

/-- `claimForWallet` from `claimFees` (src/mcp/server.ts): claim the issued
asset, then the paired WETH asset, for one wallet. Returns
`(txHashes, tokenClaimed, wethClaimed)` plus the call trace. -/
def claimForWallet (env : ClankerEnv) (tokenAddress wallet : String) :
    (List String × ℤ × ℤ) × List ExtCall :=
  ((legTxs (claimAssetFor env tokenAddress wallet).1 ++
      legTxs (claimAssetFor env WETH_BASE wallet).1,
    legAmt (claimAssetFor env tokenAddress wallet).1,
    legAmt (claimAssetFor env WETH_BASE wallet).1),
   (claimAssetFor env tokenAddress wallet).2 ++
     (claimAssetFor env WETH_BASE wallet).2)

/-- The client leg of `claimFees`: run only when the stored client wallet is
truthy and differs from the platform wallet. -/
def clientLeg (env : ClankerEnv) (db : DbState)
    (tokenAddress platformWallet : String) :
    (List String × ℤ × ℤ) × List ExtCall :=
  match (getTokenByAddress db tokenAddress).map TokenRec.clientWallet with
  | some cw =>
    if cw ≠ "" ∧ cw ≠ platformWallet then claimForWallet env tokenAddress cw
    else (([], 0, 0), [])
  | none => (([], 0, 0), [])

/-- `claimFees` from src/mcp/server.ts (lines 608-679): claim issued asset and
WETH for the platform wallet, repeat for the client wallet when distinct, and
append one `fee_claims` row (representative transaction id = first hash; WETH
amount argument precedes the issued-asset amount) unless no transaction
succeeded. -/
def claimFeesFull (env : ClankerEnv) (db : DbState)
    (tokenAddress platformWallet : String) :
    (Option FeeClaimResult × DbState) × List ExtCall :=
  (match (claimForWallet env tokenAddress platformWallet).1.1 ++
         (clientLeg env db tokenAddress platformWallet).1.1 with
   | [] => (none, db)
   | tx :: _ =>
     let r := recordFeeClaim db tokenAddress tx
       (formatEtherQ ((claimForWallet env tokenAddress platformWallet).1.2.2 +
         (clientLeg env db tokenAddress platformWallet).1.2.2))
       (formatEtherQ ((claimForWallet env tokenAddress platformWallet).1.2.1 +
         (clientLeg env db tokenAddress platformWallet).1.2.1))
     (some r.1, r.2),
   (claimForWallet env tokenAddress platformWallet).2 ++
     (clientLeg env db tokenAddress platformWallet).2)

/-- The recipients a claim run visits: the platform wallet always, then the
stored client wallet when truthy and distinct. -/
def activeClaimRecipients (db : DbState)
    (tokenAddress platformWallet : String) : List String :=
  platformWallet ::
    (match (getTokenByAddress db tokenAddress).map TokenRec.clientWallet with
     | some cw => if cw ≠ "" ∧ cw ≠ platformWallet then [cw] else []
     | none => [])

/-- `claimFees` from src/fees.ts (lines 33-65), the variant imported by the
HTTP server (src/server.ts): queries and claims only the platform wallet on
the issued asset, and records the fee-claim row with the issued-asset amount
fixed at "0". The whole body is wrapped in try/catch, so failures yield
null. -/
def claimFeesHttp (env : ClankerEnv) (db : DbState)
    (tokenAddress platformWallet : String) : Option FeeClaimResult × DbState :=
  match env.availableRewards tokenAddress platformWallet with
  | .error _ => (none, db)
  | .ok available =>
    if available = 0 then (none, db)
    else
      match env.claimRewards tokenAddress platformWallet with
      | .success tx =>
        let r := recordFeeClaim db tokenAddress tx (formatEtherQ available) 0
        (some r.1, r.2)
      | .failure _ => (none, db)
      | .thrown _ => (none, db)

/-- The `for (const token of tokens)` loop of `claimAllFees` (src/fees.ts,
lines 70-97), generic in the per-token claim step so that a step that throws
(`Except.error`) is representable: a thrown step is caught and pushed onto
`errors`, a null result onto `skipped`, a claim summary onto `claimed`; the
remaining tokens are always processed, threading the database. -/
def claimAllGo
    (claimOne : DbState → String → Except String (Option FeeClaimResult × DbState)) :
    List TokenRec → DbState →
      (List FeeClaimResult × List String × List (String × String)) × DbState
  | [], db => (([], [], []), db)
  | t :: rest, db =>
    match claimOne db t.tokenAddress with
    | .ok (some r, db2) =>
      ((r :: (claimAllGo claimOne rest db2).1.1,
        (claimAllGo claimOne rest db2).1.2.1,
        (claimAllGo claimOne rest db2).1.2.2),
       (claimAllGo claimOne rest db2).2)
    | .ok (none, db2) =>
      (((claimAllGo claimOne rest db2).1.1,
        t.tokenAddress :: (claimAllGo claimOne rest db2).1.2.1,
        (claimAllGo claimOne rest db2).1.2.2),
       (claimAllGo claimOne rest db2).2)
    | .error msg =>
      (((claimAllGo claimOne rest db).1.1,
        (claimAllGo claimOne rest db).1.2.1,
        (t.tokenAddress, msg) :: (claimAllGo claimOne rest db).1.2.2),
       (claimAllGo claimOne rest db).2)

/-- `claimAllFees`: iterate the loop over all active tokens. -/
def claimAllFees
    (claimOne : DbState → String → Except String (Option FeeClaimResult × DbState))
    (db : DbState) :
    (List FeeClaimResult × List String × List (String × String)) × DbState :=
  claimAllGo claimOne (getAllTokens db "active") db

/-- The per-token outcomes of a `claimAllFees` run, in iteration order, with
the same database threading as `claimAllGo`. -/
def runOutcomes
    (claimOne : DbState → String → Except String (Option FeeClaimResult × DbState)) :
    List TokenRec → DbState → List (String × Except String (Option FeeClaimResult))
  | [], _ => []
  | t :: rest, db =>
    match claimOne db t.tokenAddress with
    | .ok (some r, db2) => (t.tokenAddress, .ok (some r)) :: runOutcomes claimOne rest db2
    | .ok (none, db2) => (t.tokenAddress, .ok none) :: runOutcomes claimOne rest db2
    | .error msg => (t.tokenAddress, .error msg) :: runOutcomes claimOne rest db

/-! ## Fee aggregation (`aggregateOnChainFees`, src/server.ts) -/

/-- `MAX_SANE_REWARD = 10n * 10n ** 18n` from src/server.ts: 10 ETH in wei. -/
def MAX_SANE_REWARD : ℤ := 10 * 10 ^ 18

/-- One per-token entry of the aggregation cache (wei amounts; the
`formatEther` string round trip is modelled as exact). -/
structure AggEntry where
  address : String
  platformWeth : ℤ
  clientWeth : ℤ
  totalWeth : ℤ
  deriving DecidableEq, Repr

/-- The aggregation snapshot (`cachedAt` timestamp omitted). -/
structure FeeCache where
  totalWei : ℤ
  tokens : List AggEntry
  deriving DecidableEq, Repr

/-- A fee lookup whose failure is caught and treated as zero. -/
def lookupOrZero (env : ClankerEnv) (token recipient : String) : ℤ :=
  match env.availableRewards token recipient with
  | .ok a => a
  | .error _ => 0

/-- The sanity ceiling: any single lookup above `MAX_SANE_REWARD` is zeroed. -/
def sanitizeReward (a : ℤ) : ℤ := if MAX_SANE_REWARD < a then 0 else a

/-- The per-token closure inside `aggregateOnChainFees`: platform lookup, then
client lookup when the stored client wallet differs case-insensitively from
the platform wallet, each failure caught as zero, each result capped by the
sanity check. -/
def aggEntryFor (env : ClankerEnv) (platformWallet : String) (t : TokenRec) :
    AggEntry :=
  { address := t.tokenAddress
    platformWeth := sanitizeReward (lookupOrZero env t.tokenAddress platformWallet)
    clientWeth :=
      if t.clientWallet ≠ "" ∧ lowerStr t.clientWallet ≠ lowerStr platformWallet then
        sanitizeReward (lookupOrZero env t.tokenAddress t.clientWallet)
      else 0
    totalWeth :=
      sanitizeReward (lookupOrZero env t.tokenAddress platformWallet) +
      (if t.clientWallet ≠ "" ∧ lowerStr t.clientWallet ≠ lowerStr platformWallet then
         sanitizeReward (lookupOrZero env t.tokenAddress t.clientWallet)
       else 0) }

/-- The rebuild path of `aggregateOnChainFees` (src/server.ts, lines 32-116):
every active token contributes one entry (the batching into groups of five
concurrent lookups only schedules the same per-token computations), and the
grand total is the sum of the per-token totals. The 5-minute cache
short-circuit is state outside this computation. -/
def aggregateOnChainFees (env : ClankerEnv) (db : DbState)
    (platformWallet : String) : FeeCache :=
  { totalWei :=
      (((getAllTokens db "active").map (aggEntryFor env platformWallet)).map
        AggEntry.totalWeth).sum
    tokens := (getAllTokens db "active").map (aggEntryFor env platformWallet) }

/-! ## Concrete inputs used by counterexamples and witnesses -/

/-- A well-formed 0x wallet address. -/
def walletA : String := "0x1111111111111111111111111111111111111111"

/-- A second well-formed 0x wallet address. -/
def walletB : String := "0x2222222222222222222222222222222222222222"

/-- A third well-formed 0x wallet address. -/
def walletC : String := "0x3333333333333333333333333333333333333333"

/-- A fourth well-formed 0x wallet address. -/
def walletD : String := "0x4444444444444444444444444444444444444444"

/-- The platform wallet used in concrete evaluations. -/
def walletP : String := "0x5555555555555555555555555555555555555555"

/-- A minimal deploy request carrying a given fee-split list. -/
def reqWithSplit (entries : List FeeSplitEntry) : DeployRequest :=
  { name := "Test Agent", symbol := "TST", clientWallet := walletA,
    feeSplit := some entries }

/-- A name of 101 characters whose first character is the markup character:
it violates both the length rule and the markup rule. -/
def longMarkupName : String := ⟨'<' :: List.replicate 100 'a'⟩

/-- A request whose name violates both the length and the markup rule. -/
def reqLongMarkup : DeployRequest :=
  { name := longMarkupName, symbol := "TST", clientWallet := walletA }

/-- Fee-split list whose shares sum to 0 (≤ 80) but which the allocator
rejects: a zero share fails the per-entry `share <= 0` check. -/
def splitZeroShare : List FeeSplitEntry := [⟨walletB, 0, "dev"⟩]

/-- Fee-split list whose shares sum to exactly 80 yet whose independently
rounded bps sum to 8002 > 8000, so the allocator rejects it. All four shares
are odd multiples of 1/8, hence exact in binary floating point, and each
`share * 100` ends in .5 and rounds up. -/
def splitRoundUp : List FeeSplitEntry :=
  [⟨walletA, 159/8, "a"⟩, ⟨walletB, 159/8, "b"⟩,
   ⟨walletC, 161/8, "c"⟩, ⟨walletD, 161/8, "d"⟩]

/-- Fee-split list whose shares sum to 80 + 5/1024 > 80 yet whose rounded bps
sum to exactly 8000, so the allocator accepts it. Each share is
16 + 1/1024, exact in binary floating point, and `share * 100` rounds down. -/
def splitRoundDown : List FeeSplitEntry :=
  [⟨walletA, 16 + 1/1024, "a"⟩, ⟨walletB, 16 + 1/1024, "b"⟩,
   ⟨walletC, 16 + 1/1024, "c"⟩, ⟨walletD, 16 + 1/1024, "d"⟩,
   ⟨walletP, 16 + 1/1024, "e"⟩]

/-- A stored active token used in concrete evaluations. -/
def tokenT : TokenRec :=
  { name := "Test Agent", symbol := "TST", tokenAddress := walletC,
    txHash := "0xabc", clientWallet := walletA, clientBps := 8000,
    platformBps := 2000, totalFeesClaimedWeth := 0, totalFeesClaimedToken := 0,
    status := "active" }

/-- A database holding the single active token. -/
def dbOne : DbState := { tokens := [tokenT], claims := [] }

/-- An environment on which nothing is claimable. -/
def envQuiet : ClankerEnv :=
  { availableRewards := fun _ _ => .ok 0
    claimRewards := fun _ _ => .failure "noop" }

/-- An environment on which every lookup throws. -/
def envDown : ClankerEnv :=
  { availableRewards := fun _ _ => .error "rpc down"
    claimRewards := fun _ _ => .failure "noop" }

/-! ## Theorems -/

/-! ### Evaluation lemmas

The `FloorRing ℚ` instance does not reduce inside the kernel, so concrete
values of `jsRound` are established once by `norm_num` (arguments appear in
`norm_num`-normalised literal form) and then used as rewrite rules. -/

/-- jsRound of an exact integer argument (here 3000 = 30·100). -/
theorem jsRound_3000 : jsRound 3000 = 3000 := by
  unfold jsRound; norm_num [Int.floor_eq_iff]

/-- jsRound ((159/8)·100) = jsRound 1987.5 = 1988: rounds half up. -/
theorem jsRound_half_up_1988 : jsRound (3975/2) = 1988 := by
  unfold jsRound; norm_num [Int.floor_eq_iff]

/-- jsRound ((161/8)·100) = jsRound 2012.5 = 2013: rounds half up. -/
theorem jsRound_half_up_2013 : jsRound (4025/2) = 2013 := by
  unfold jsRound; norm_num [Int.floor_eq_iff]

/-- jsRound ((16 + 1/1024)·100) = jsRound 1600.09765625 = 1600: rounds down. -/
theorem jsRound_down_1600 : jsRound (409625/256) = 1600 := by
  unfold jsRound; norm_num [Int.floor_eq_iff]

/-- The concrete wallets satisfy the address regex. -/
theorem walletA_valid : isValidAddress walletA = true := by decide

/-- The concrete wallet B satisfies the address regex. -/
theorem walletB_valid : isValidAddress walletB = true := by decide

/-- The concrete wallet C satisfies the address regex. -/
theorem walletC_valid : isValidAddress walletC = true := by decide

/-- The concrete wallet D satisfies the address regex. -/
theorem walletD_valid : isValidAddress walletD = true := by decide

/-- The concrete platform wallet satisfies the address regex. -/
theorem walletP_valid : isValidAddress walletP = true := by decide

/-! ### Structure of the fee-split loop -/

/-- Successful runs of the fee-split loop return exactly the input entries
mapped to recipients, with `usedBps` the sum of their individually rounded
bps. -/
theorem processFeeSplit_ok_shape (entries : List FeeSplitEntry)
    (recs : List RewardRecipient) (used : ℤ)
    (h : processFeeSplit entries = .ok (recs, used)) :
    recs = entries.map splitRecipient ∧
      used = (entries.map fun e => jsRound (e.share * 100)).sum := by
  induction entries generalizing recs used with
  | nil =>
    simp only [processFeeSplit] at h
    injection h with h2
    injection h2 with ha hb
    subst ha; subst hb
    simp
  | cons e rest ih =>
    simp only [processFeeSplit] at h
    split at h
    · exact (Except.noConfusion h)
    · split at h
      · exact (Except.noConfusion h)
      · cases hrec : processFeeSplit rest with
        | error err => rw [hrec] at h; exact (Except.noConfusion h)
        | ok pr =>
          obtain ⟨recs0, used0⟩ := pr
          rw [hrec] at h
          simp only at h
          injection h with h2
          injection h2 with ha hb
          subst ha; subst hb
          obtain ⟨ih1, ih2⟩ := ih recs0 used0 hrec
          subst ih1; subst ih2
          simp

/-- The loop succeeds whenever every entry has a share in (0, 80] and a
well-formed wallet. -/
theorem processFeeSplit_ok_of_valid (entries : List FeeSplitEntry)
    (hvalid : ∀ e ∈ entries,
      0 < e.share ∧ e.share ≤ 80 ∧ isValidAddress e.wallet = true) :
    processFeeSplit entries =
      .ok (entries.map splitRecipient,
           (entries.map fun e => jsRound (e.share * 100)).sum) := by
  induction entries with
  | nil => simp [processFeeSplit]
  | cons e rest ih =>
    obtain ⟨h1, h2, h3⟩ := hvalid e (by simp)
    have hrest := ih fun x hx => hvalid x (by simp [hx])
    simp only [processFeeSplit]
    rw [if_neg (by push_neg; constructor <;> linarith)]
    rw [h3]
    simp [hrest]

/-- Sum of the bps of the mapped recipients. -/
theorem splitRecipient_bps_sum (entries : List FeeSplitEntry) :
    ((entries.map splitRecipient).map RewardRecipient.bps).sum =
      (entries.map fun e => jsRound (e.share * 100)).sum := by
  induction entries with
  | nil => simp
  | cons e rest ih =>
    simp only [List.map_cons, List.sum_cons, ih]
    rfl

/-! ### Claim C1 -/

/-- Claim C1: whenever reward allocation succeeds (with or without a fee-split
list, for any server platform fee), the returned recipients' bps values sum to
exactly 10000. -/
theorem buildRewardsConfig_sum_10000 (req : DeployRequest)
    (platformWallet : String) (platformFeeBps : ℤ)
    (recips : List RewardRecipient)
    (h : buildRewardsConfig req platformWallet platformFeeBps = .ok recips) :
    (recips.map RewardRecipient.bps).sum = 10000 := by
  unfold buildRewardsConfig at h
  cases hfs : req.feeSplit with
  | none =>
    rw [hfs] at h
    simp only [Except.ok.injEq] at h
    subst h
    simp [defaultRecipients, clientRecipient, platformRecipient]
  | some entries =>
    rw [hfs] at h
    simp only at h
    by_cases hemp : entries.isEmpty
    · rw [if_pos hemp] at h
      simp only [Except.ok.injEq] at h
      subst h
      simp [defaultRecipients, clientRecipient, platformRecipient]
    · rw [if_neg hemp] at h
      by_cases hlen : 5 < entries.length
      · rw [if_pos hlen] at h; exact (Except.noConfusion h)
      · rw [if_neg hlen] at h
        cases hrec : processFeeSplit entries with
        | error err => rw [hrec] at h; exact (Except.noConfusion h)
        | ok pr =>
          obtain ⟨recs0, used0⟩ := pr
          rw [hrec] at h
          simp only at h
          obtain ⟨hshape, hused⟩ :=
            processFeeSplit_ok_shape entries recs0 used0 hrec
          have hsum : (recs0.map RewardRecipient.bps).sum = used0 := by
            rw [hshape, hused, splitRecipient_bps_sum]
          by_cases hover : 10000 - platformFeeBps < used0
          · rw [if_pos hover] at h; exact (Except.noConfusion h)
          · rw [if_neg hover] at h
            by_cases hpos : 0 < 10000 - platformFeeBps - used0
            · rw [if_pos hpos] at h
              simp only [Except.ok.injEq] at h
              subst h
              simp [clientRecipient, platformRecipient, hsum]
              ring
            · rw [if_neg hpos] at h
              simp only [Except.ok.injEq] at h
              subst h
              simp [platformRecipient, hsum]
              omega

/-- Witness for C1: the end-to-end example of section 8 of the specification
(30% dev split, platform fee 2000 bps) sums to 10000. -/
theorem buildRewardsConfig_sum_10000_witness :
    (buildRewardsConfig (reqWithSplit [⟨walletB, 30, "dev"⟩]) walletP 2000 =
      .ok [⟨walletB, walletB, 3000, .Both, "dev"⟩,
           ⟨walletA, walletA, 5000, .Both, "client"⟩,
           ⟨walletP, walletP, 2000, .Both, "conlaunch"⟩]) ∧
    (([⟨walletB, walletB, 3000, .Both, "dev"⟩,
       ⟨walletA, walletA, 5000, .Both, "client"⟩,
       ⟨walletP, walletP, 2000, .Both, "conlaunch"⟩] :
        List RewardRecipient).map RewardRecipient.bps).sum = 10000 := by
  have heval : buildRewardsConfig (reqWithSplit [⟨walletB, 30, "dev"⟩]) walletP 2000 =
      .ok [⟨walletB, walletB, 3000, .Both, "dev"⟩,
           ⟨walletA, walletA, 5000, .Both, "client"⟩,
           ⟨walletP, walletP, 2000, .Both, "conlaunch"⟩] := by
    norm_num [buildRewardsConfig, reqWithSplit, processFeeSplit, splitRecipient,
      clientRecipient, platformRecipient, walletB_valid, jsRound_3000]
  exact ⟨heval,
    buildRewardsConfig_sum_10000 (reqWithSplit [⟨walletB, 30, "dev"⟩]) walletP 2000
      _ heval⟩

/-! ### Claim C2 -/

/-- Counterexample for C2 (claim as stated is false in both directions):
`splitZeroShare` has shares summing to 0 ≤ 80 yet allocation fails (the
per-entry check rejects share 0); `splitRoundUp` has shares summing to exactly
80 yet allocation fails (independently rounded bps total 8002 > 8000); and
`splitRoundDown` has shares summing to more than 80 yet allocation succeeds
(rounded bps total exactly 8000). Platform fee is the server default 2000. -/
theorem buildRewardsConfig_share80_counterexample :
    ((splitZeroShare.map FeeSplitEntry.share).sum ≤ 80 ∧
      allocFailed (buildRewardsConfig (reqWithSplit splitZeroShare) walletP 2000)
        = true) ∧
    ((splitRoundUp.map FeeSplitEntry.share).sum ≤ 80 ∧
      allocFailed (buildRewardsConfig (reqWithSplit splitRoundUp) walletP 2000)
        = true) ∧
    (80 < (splitRoundDown.map FeeSplitEntry.share).sum ∧
      allocFailed (buildRewardsConfig (reqWithSplit splitRoundDown) walletP 2000)
        = false) := by
  refine ⟨⟨?_, ?_⟩, ⟨?_, ?_⟩, ?_, ?_⟩
  · norm_num [splitZeroShare]
  · norm_num [splitZeroShare, reqWithSplit, buildRewardsConfig, processFeeSplit,
      allocFailed]
  · norm_num [splitRoundUp]
  · norm_num [splitRoundUp, reqWithSplit, buildRewardsConfig, processFeeSplit,
      splitRecipient, allocFailed, walletA_valid, walletB_valid, walletC_valid,
      walletD_valid, jsRound_half_up_1988, jsRound_half_up_2013]
  · norm_num [splitRoundDown]
  · norm_num [splitRoundDown, reqWithSplit, buildRewardsConfig, processFeeSplit,
      splitRecipient, clientRecipient, platformRecipient, allocFailed,
      walletA_valid, walletB_valid, walletC_valid, walletD_valid, walletP_valid,
      jsRound_down_1600]

/-- Claim C2 as amended: for a fee-split list of one to five entries, each with
a share in (0, 80] and a well-formed wallet, allocation succeeds exactly when
the per-entry rounded bps (`Math.round(share · 100)`) sum to at most
`10000 − P`, and otherwise fails with the over-allocation error. With the
default platform fee P = 2000 and integer shares this coincides with the
original "shares sum ≤ 80" criterion, but fractional shares make the rounded
sum the real boundary. -/
theorem buildRewardsConfig_split_boundary (req : DeployRequest)
    (platformWallet : String) (platformFeeBps : ℤ)
    (entries : List FeeSplitEntry)
    (hfs : req.feeSplit = some entries)
    (hne : entries ≠ [])
    (hlen : entries.length ≤ 5)
    (hvalid : ∀ e ∈ entries,
      0 < e.share ∧ e.share ≤ 80 ∧ isValidAddress e.wallet = true) :
    ((entries.map fun e => jsRound (e.share * 100)).sum ≤ 10000 - platformFeeBps →
      ∃ recips,
        buildRewardsConfig req platformWallet platformFeeBps = .ok recips) ∧
    (10000 - platformFeeBps < (entries.map fun e => jsRound (e.share * 100)).sum →
      buildRewardsConfig req platformWallet platformFeeBps =
        .error (.exceedsAllocation
          ((entries.map fun e => jsRound (e.share * 100)).sum)
          (10000 - platformFeeBps))) := by
  have hrun := processFeeSplit_ok_of_valid entries hvalid
  have hemp : entries.isEmpty = false := by
    cases entries with
    | nil => exact absurd rfl hne
    | cons a l => rfl
  constructor
  · intro hle
    unfold buildRewardsConfig
    rw [hfs]
    simp only [hemp, Bool.false_eq_true, if_false]
    rw [if_neg (by omega), hrun]
    simp only
    rw [if_neg (by omega)]
    by_cases hpos :
        0 < 10000 - platformFeeBps - (entries.map fun e => jsRound (e.share * 100)).sum
    · rw [if_pos hpos]; exact ⟨_, rfl⟩
    · rw [if_neg hpos]; exact ⟨_, rfl⟩
  · intro hgt
    unfold buildRewardsConfig
    rw [hfs]
    simp only [hemp, Bool.false_eq_true, if_false]
    rw [if_neg (by omega), hrun]
    simp only
    rw [if_pos (by omega)]

/-- Witness for the amended C2, exercising both directions at concrete inputs:
a single 30% entry (rounded sum 3000 ≤ 8000) succeeds, and the rounding
counterexample list (rounded sum 8002 > 8000) fails with the over-allocation
error. -/
theorem buildRewardsConfig_split_boundary_witness :
    (∃ recips,
      buildRewardsConfig (reqWithSplit [⟨walletB, 30, "dev"⟩]) walletP 2000 =
        .ok recips) ∧
    buildRewardsConfig (reqWithSplit splitRoundUp) walletP 2000 =
      .error (.exceedsAllocation 8002 8000) := by
  constructor
  · exact
      (buildRewardsConfig_split_boundary (reqWithSplit [⟨walletB, 30, "dev"⟩])
        walletP 2000 [⟨walletB, 30, "dev"⟩] rfl (by decide) (by decide)
        (by
          intro e he
          simp only [List.mem_singleton] at he
          subst he
          exact ⟨by norm_num, by norm_num, walletB_valid⟩)).1
      (by norm_num [jsRound_3000])
  · have h :=
      (buildRewardsConfig_split_boundary (reqWithSplit splitRoundUp)
        walletP 2000 splitRoundUp rfl (by decide) (by decide)
        (by
          intro e he
          simp only [splitRoundUp, List.mem_cons, List.mem_singleton] at he
          rcases he with rfl | rfl | rfl | rfl | h
          · exact ⟨by norm_num, by norm_num, walletA_valid⟩
          · exact ⟨by norm_num, by norm_num, walletB_valid⟩
          · exact ⟨by norm_num, by norm_num, walletC_valid⟩
          · exact ⟨by norm_num, by norm_num, walletD_valid⟩
          · cases h)).2
      (by norm_num [splitRoundUp, jsRound_half_up_1988, jsRound_half_up_2013])
    have hsum : ((splitRoundUp.map fun e => jsRound (e.share * 100)).sum : ℤ)
        = 8002 := by
      norm_num [splitRoundUp, jsRound_half_up_1988, jsRound_half_up_2013]
    rw [hsum] at h
    norm_num at h
    exact h

/-! ### Claim C3 -/

/-- Claim C3: on every successful allocation the result decomposes as the
spec's non-platform part followed by exactly one platform entry, placed last,
whose bps is exactly the server-side `platformFeeBps` (a value the request
cannot influence: `DeployRequest` carries no platform-fee field, and
`deployToken` reads it from `PLATFORM_FEE_BPS`). The non-platform part carries
each explicit entry's independently rounded bps, and the requester residual —
not the platform share — absorbs all rounding drift. -/
theorem buildRewardsConfig_platform_fixed_last (req : DeployRequest)
    (platformWallet : String) (platformFeeBps : ℤ)
    (recips : List RewardRecipient)
    (h : buildRewardsConfig req platformWallet platformFeeBps = .ok recips) :
    recips = specNonPlatformPart req platformFeeBps ++
      [platformRecipient platformWallet platformFeeBps] := by
  unfold buildRewardsConfig at h
  unfold specNonPlatformPart
  cases hfs : req.feeSplit with
  | none =>
    rw [hfs] at h
    simp only [Except.ok.injEq] at h
    subst h
    simp [defaultRecipients]
  | some entries =>
    rw [hfs] at h
    simp only at h
    by_cases hemp : entries.isEmpty
    · rw [if_pos hemp] at h
      simp only [Except.ok.injEq] at h
      subst h
      simp [hemp, defaultRecipients]
    · rw [if_neg hemp] at h
      by_cases hlen : 5 < entries.length
      · rw [if_pos hlen] at h; exact (Except.noConfusion h)
      · rw [if_neg hlen] at h
        cases hrec : processFeeSplit entries with
        | error err => rw [hrec] at h; exact (Except.noConfusion h)
        | ok pr =>
          obtain ⟨recs0, used0⟩ := pr
          rw [hrec] at h
          simp only at h
          obtain ⟨hshape, hused⟩ :=
            processFeeSplit_ok_shape entries recs0 used0 hrec
          subst hshape
          subst hused
          by_cases hover :
              10000 - platformFeeBps <
                (entries.map fun e => jsRound (e.share * 100)).sum
          · rw [if_pos hover] at h; exact (Except.noConfusion h)
          · rw [if_neg hover] at h
            simp only [Bool.not_eq_true] at hemp
            simp only [hemp, Bool.false_eq_true, if_false]
            by_cases hpos :
                0 < 10000 - platformFeeBps -
                  (entries.map fun e => jsRound (e.share * 100)).sum
            · rw [if_pos hpos] at h
              simp only [Except.ok.injEq] at h
              subst h
              rw [if_pos hpos]
            · rw [if_neg hpos] at h
              simp only [Except.ok.injEq] at h
              subst h
              rw [if_neg hpos]
              simp

/-- Witness for C3 at the section-8 example: the platform entry sits last at
exactly 2000 bps after the dev entry (3000) and the requester residual
(5000). -/
theorem buildRewardsConfig_platform_fixed_last_witness :
    ([⟨walletB, walletB, 3000, .Both, "dev"⟩,
      ⟨walletA, walletA, 5000, .Both, "client"⟩,
      ⟨walletP, walletP, 2000, .Both, "conlaunch"⟩] : List RewardRecipient) =
      specNonPlatformPart (reqWithSplit [⟨walletB, 30, "dev"⟩]) 2000 ++
        [platformRecipient walletP 2000] :=
  buildRewardsConfig_platform_fixed_last (reqWithSplit [⟨walletB, 30, "dev"⟩])
    walletP 2000 _
    (by
      norm_num [buildRewardsConfig, reqWithSplit, processFeeSplit,
        splitRecipient, clientRecipient, platformRecipient, walletB_valid,
        jsRound_3000])

/-! ### Validator block characterizations (claim C7) -/

/-- Membership in the name block. The three checks are chained, so each
disjunct carries the negations of the earlier conditions. -/
theorem mem_nameErrors (e : VError) (n : String) :
    e ∈ nameErrors n ↔
      ((e = .nameRequired ∧ isBlank n = true) ∨
       (e = .nameTooLong ∧ isBlank n = false ∧ 100 < n.length) ∨
       (e = .nameHtml ∧ isBlank n = false ∧ ¬ 100 < n.length ∧
         strIncludes n "<" = true)) := by
  unfold nameErrors
  split_ifs with h1 h2 h3 <;> simp_all

/-- Membership in the symbol block. -/
theorem mem_symbolErrors (e : VError) (s : String) :
    e ∈ symbolErrors s ↔
      ((e = .symbolRequired ∧ isBlank s = true) ∨
       (e = .symbolLength ∧ isBlank s = false ∧ (s.length < 2 ∨ 10 < s.length)) ∨
       (e = .symbolAlnum ∧ isBlank s = false ∧ ¬(s.length < 2 ∨ 10 < s.length) ∧
         s.data.all isAlnumChar = false)) := by
  unfold symbolErrors
  split_ifs with h1 h2 h3 <;> simp_all

/-- Membership in the wallet block. -/
theorem mem_walletErrors (e : VError) (w : String) :
    e ∈ walletErrors w ↔
      ((e = .walletRequired ∧ w = "") ∨
       (e = .walletInvalid ∧ w ≠ "" ∧ isValidAddress w = false)) := by
  unfold walletErrors
  split_ifs with h1 h2 <;> simp_all

/-- Membership in the description block. -/
theorem mem_descriptionErrors (e : VError) (d : Option String) :
    e ∈ descriptionErrors d ↔
      ((e = .descTooLong ∧ ∃ s, d = some s ∧ s ≠ "" ∧ 1000 < s.length) ∨
       (e = .descHtml ∧ ∃ s, d = some s ∧ ¬(s ≠ "" ∧ 1000 < s.length) ∧
         s ≠ "" ∧ strIncludes s "<" = true)) := by
  cases d with
  | none => simp [descriptionErrors]
  | some s =>
    simp only [descriptionErrors]
    split_ifs with h1 h2 <;> simp_all

/-- Membership in the image block. -/
theorem mem_imageErrors (e : VError) (i : Option String) :
    e ∈ imageErrors i ↔
      (e = .imageInvalid ∧ ∃ s, i = some s ∧ s ≠ "" ∧
        (s.startsWith "https://" || s.startsWith "ipfs://") = false) := by
  cases i with
  | none => simp [imageErrors]
  | some s =>
    simp only [imageErrors]
    split_ifs with h1 h2 <;> simp_all

/-- Membership in the vault block (the two checks are independent). -/
theorem mem_vaultErrors (e : VError) (v : Option VaultSpec) :
    e ∈ vaultErrors v ↔
      ((e = .vaultPercentage ∧ ∃ vv, v = some vv ∧
         (vv.percentage < 0 ∨ 90 < vv.percentage)) ∨
       (e = .vaultLockup ∧ ∃ vv, v = some vv ∧ vv.lockupDays < 7)) := by
  cases v with
  | none => simp [vaultErrors]
  | some vv =>
    simp only [vaultErrors, List.mem_append]
    split_ifs with h1 h2 <;> simp_all

/-- Membership in the trading-fee block. -/
theorem mem_feesErrors (e : VError) (f : Option FeesSpec) :
    e ∈ feesErrors f ↔
      ((e = .feeDynamic ∧ ∃ ff ty, f = some ff ∧ ff.ftype = some ty ∧
         ty ≠ "" ∧ ty ≠ "static") ∨
       (e = .feeBpsRange ∧ ∃ ff b, f = some ff ∧ ff.bps = some b ∧
         b ≠ 0 ∧ (b < 10 ∨ 500 < b))) := by
  cases f with
  | none => simp [feesErrors]
  | some ff =>
    obtain ⟨ft, b⟩ := ff
    simp only [feesErrors, List.mem_append]
    cases ft with
    | none =>
      cases b with
      | none => simp
      | some bv => dsimp only; split_ifs <;> simp_all
    | some ty =>
      cases b with
      | none => dsimp only; split_ifs <;> simp_all
      | some bv => dsimp only; split_ifs <;> simp_all

/-- Only split-wallet and split-duplicate errors come out of the per-entry
fee-split loop. -/
theorem splitEntryErrors_only (e : VError)
    (hw : ∀ r, e ≠ .splitWallet r) (hd : ∀ w, e ≠ .splitDuplicate w) :
    ∀ (l : List FeeSplitEntry) (seen : List String),
      e ∉ splitEntryErrors l seen := by
  intro l
  induction l with
  | nil => intro seen h; simp [splitEntryErrors] at h
  | cons x rest ih =>
    intro seen h
    simp only [splitEntryErrors, List.mem_append] at h
    rcases h with (h | h) | h
    · split_ifs at h with hc
      · simp at h; exact hw x.role h
      · simp at h
    · split_ifs at h with hc
      · simp at h; exact hd x.wallet h
      · simp at h
    · exact ih _ h

/-- The split-total error appears exactly when a nonempty fee-split list's
declared shares sum to more than 80. -/
theorem mem_feeSplitErrors_splitTotal (fs : Option (List FeeSplitEntry)) :
    VError.splitTotal ∈ feeSplitErrors fs ↔
      ∃ entries, fs = some entries ∧ entries.isEmpty = false ∧
        80 < (entries.map FeeSplitEntry.share).sum := by
  cases fs with
  | none => simp [feeSplitErrors]
  | some entries =>
    simp only [feeSplitErrors]
    have hse := splitEntryErrors_only .splitTotal
      (fun r h => VError.noConfusion h) (fun w h => VError.noConfusion h)
      entries []
    by_cases hemp : entries.isEmpty
    · simp_all
    · rw [if_neg hemp]
      simp only [List.mem_append]
      split_ifs with h5 h80 <;> simp_all

/-- No constructor other than the four split errors can appear in the
fee-split block. -/
theorem feeSplitErrors_only (e : VError)
    (h1 : e ≠ .splitMax) (h2 : e ≠ .splitTotal)
    (hw : ∀ r, e ≠ .splitWallet r) (hd : ∀ w, e ≠ .splitDuplicate w)
    (fs : Option (List FeeSplitEntry)) : e ∉ feeSplitErrors fs := by
  cases fs with
  | none => simp [feeSplitErrors]
  | some entries =>
    simp only [feeSplitErrors]
    have hse := splitEntryErrors_only e hw hd entries []
    by_cases hemp : entries.isEmpty
    · simp_all
    · rw [if_neg hemp]
      simp only [List.mem_append]
      split_ifs with h5 h80 <;> simp_all

/-! ### Claim C7 -/

/-- Counterexample for C7 as stated: a name that is both over 100 characters
and contains a markup character yields only the length error — the markup
error is not emitted, because the name checks are chained with `else if`. -/
theorem validateLaunch_name_chain_counterexample :
    100 < reqLongMarkup.name.length ∧
    strIncludes reqLongMarkup.name "<" = true ∧
    VError.nameTooLong ∈ (validateLaunch reqLongMarkup [] 2000).errors ∧
    VError.nameHtml ∉ (validateLaunch reqLongMarkup [] 2000).errors := by
  refine ⟨by decide, by decide, by decide, by decide⟩

/-- Claim C7 as amended: distinct rule groups are all evaluated independently
— each group's error appears in the output exactly when that group's own
condition is violated, no matter what the other fields contain — but within
the chained name group an over-long name yields only the length error, and
the markup error appears only for names of at most 100 characters. -/
theorem validateLaunch_rules_independent (req : DeployRequest)
    (syms : List String) (P : ℤ) :
    (VError.nameRequired ∈ (validateLaunch req syms P).errors ↔
      isBlank req.name = true) ∧
    (VError.nameTooLong ∈ (validateLaunch req syms P).errors ↔
      (isBlank req.name = false ∧ 100 < req.name.length)) ∧
    (VError.nameHtml ∈ (validateLaunch req syms P).errors ↔
      (isBlank req.name = false ∧ req.name.length ≤ 100 ∧
        strIncludes req.name "<" = true)) ∧
    (VError.symbolLength ∈ (validateLaunch req syms P).errors ↔
      (isBlank req.symbol = false ∧
        (req.symbol.length < 2 ∨ 10 < req.symbol.length))) ∧
    (VError.walletInvalid ∈ (validateLaunch req syms P).errors ↔
      (req.clientWallet ≠ "" ∧ isValidAddress req.clientWallet = false)) ∧
    (VError.vaultLockup ∈ (validateLaunch req syms P).errors ↔
      (∃ v, req.vault = some v ∧ v.lockupDays < 7)) ∧
    (VError.splitTotal ∈ (validateLaunch req syms P).errors ↔
      (∃ entries, req.feeSplit = some entries ∧ entries.isEmpty = false ∧
        80 < (entries.map FeeSplitEntry.share).sum)) := by
  have herr : (validateLaunch req syms P).errors = launchErrors req := rfl
  refine ⟨?_, ?_, ?_, ?_, ?_, ?_, ?_⟩ <;>
    rw [herr] <;>
    simp only [launchErrors, List.mem_append, mem_nameErrors, mem_symbolErrors,
      mem_walletErrors, mem_descriptionErrors, mem_imageErrors, mem_vaultErrors,
      mem_feesErrors, mem_feeSplitErrors_splitTotal]
  · simp [feeSplitErrors_only VError.nameRequired (by intro h; cases h)
      (by intro h; cases h) (by intro r h; cases h) (by intro w h; cases h)
      req.feeSplit]
  · simp [Nat.not_lt, feeSplitErrors_only VError.nameTooLong (by intro h; cases h)
      (by intro h; cases h) (by intro r h; cases h) (by intro w h; cases h)
      req.feeSplit]
  · simp [Nat.not_lt, feeSplitErrors_only VError.nameHtml (by intro h; cases h)
      (by intro h; cases h) (by intro r h; cases h) (by intro w h; cases h)
      req.feeSplit]
  · simp [feeSplitErrors_only VError.symbolLength (by intro h; cases h)
      (by intro h; cases h) (by intro r h; cases h) (by intro w h; cases h)
      req.feeSplit]
  · simp [feeSplitErrors_only VError.walletInvalid (by intro h; cases h)
      (by intro h; cases h) (by intro r h; cases h) (by intro w h; cases h)
      req.feeSplit]
  · simp [feeSplitErrors_only VError.vaultLockup (by intro h; cases h)
      (by intro h; cases h) (by intro r h; cases h) (by intro w h; cases h)
      req.feeSplit]
  · simp

/-! ### Claim C6 -/

/-- Claim C6: boundary behaviour of the rate limiter — a last launch exactly
`COOLDOWN_MS` ago is allowed with zero remaining, while one millisecond short
of the window is denied with one millisecond remaining and the next allowed
time at `lastTimestamp + COOLDOWN_MS`. -/
theorem checkRateLimit_boundary (t now : ℤ) :
    (now - t = COOLDOWN_MS → checkRateLimit (some t) now = ⟨true, none, 0⟩) ∧
    (now - t = COOLDOWN_MS - 1 →
      checkRateLimit (some t) now = ⟨false, some (t + COOLDOWN_MS), 1⟩) := by
  constructor
  · intro h
    simp only [checkRateLimit]
    rw [if_pos (by omega)]
  · intro h
    simp only [checkRateLimit]
    rw [if_neg (by omega)]
    have h1 : COOLDOWN_MS - (now - t) = 1 := by omega
    simp [h1]

/-- Witness for C6 at a concrete timestamp (last launch at epoch 0, now
exactly 24h and 24h − 1ms later). -/
theorem checkRateLimit_boundary_witness :
    checkRateLimit (some 0) 86400000 = ⟨true, none, 0⟩ ∧
    checkRateLimit (some 0) 86399999 = ⟨false, some 86400000, 1⟩ :=
  ⟨(checkRateLimit_boundary 0 86400000).1 (by decide),
   (checkRateLimit_boundary 0 86399999).2 (by decide)⟩

/-! ### Claim C8 -/

/-- Claim C8: the full claim function returns null exactly when no claim
transaction succeeded, and in that case it appends no fee-claim row and
leaves the whole database — in particular both cumulative counters —
untouched. -/
theorem claimFees_null_iff (env : ClankerEnv) (db : DbState) (ta pw : String) :
    ((claimFeesFull env db ta pw).1.1 = none ↔
      (claimForWallet env ta pw).1.1 ++ (clientLeg env db ta pw).1.1 = []) ∧
    ((claimForWallet env ta pw).1.1 ++ (clientLeg env db ta pw).1.1 = [] →
      (claimFeesFull env db ta pw).1 = (none, db)) := by
  have hfst : (claimFeesFull env db ta pw).1 =
      match (claimForWallet env ta pw).1.1 ++ (clientLeg env db ta pw).1.1 with
      | [] => (none, db)
      | tx :: _ =>
        let r := recordFeeClaim db ta tx
          (formatEtherQ ((claimForWallet env ta pw).1.2.2 +
            (clientLeg env db ta pw).1.2.2))
          (formatEtherQ ((claimForWallet env ta pw).1.2.1 +
            (clientLeg env db ta pw).1.2.1))
        (some r.1, r.2) := rfl
  cases hl : (claimForWallet env ta pw).1.1 ++ (clientLeg env db ta pw).1.1 with
  | nil =>
    rw [hl] at hfst
    constructor
    · rw [hfst]; simp
    · intro _; rw [hfst]
  | cons tx rest =>
    rw [hl] at hfst
    constructor
    · rw [hfst]; simp
    · intro hcontra; exact absurd hcontra (by simp)

/-- Witness for C8: on an environment where every claimable amount is zero,
the claim of the stored token returns null and the database is unchanged. -/
theorem claimFees_null_iff_witness :
    (claimFeesFull envQuiet dbOne walletC walletP).1 = (none, dbOne) :=
  (claimFees_null_iff envQuiet dbOne walletC walletP).2 (by rfl)

/-! ### Claim C10 -/

/-- Claim C10: the claim path the HTTP server imports (src/fees.ts) writes any
fee-claim row with the issued-asset amount fixed at 0, so no claim ever
changes any token's cumulative issued-asset counter; only the WETH counter
can move. -/
theorem claimFeesHttp_token_counter_frozen (env : ClankerEnv) (db : DbState)
    (ta pw : String) :
    (((claimFeesHttp env db ta pw).2.claims = db.claims) ∨
      (∃ row, (claimFeesHttp env db ta pw).2.claims = db.claims ++ [row] ∧
        row.tokenClaimed = 0)) ∧
    ((claimFeesHttp env db ta pw).2.tokens.map TokenRec.totalFeesClaimedToken =
      db.tokens.map TokenRec.totalFeesClaimedToken) := by
  unfold claimFeesHttp
  cases henv : env.availableRewards ta pw with
  | error m => exact ⟨Or.inl rfl, rfl⟩
  | ok amt =>
    dsimp only
    by_cases hz : amt = 0
    · rw [if_pos hz]; exact ⟨Or.inl rfl, rfl⟩
    · rw [if_neg hz]
      cases hcl : env.claimRewards ta pw with
      | failure m => exact ⟨Or.inl rfl, rfl⟩
      | thrown m => exact ⟨Or.inl rfl, rfl⟩
      | success tx =>
        dsimp only [recordFeeClaim]
        refine ⟨Or.inr ⟨_, rfl, rfl⟩, ?_⟩
        rw [List.map_map]
        refine List.map_congr_left ?_
        intro t _
        by_cases hmatch : (t.tokenAddress == ta) = true
        · simp only [Function.comp, hmatch, if_true]
          simp
        · simp only [Function.comp, hmatch]
          simp [hmatch]

/-! ### Claim C9 -/

/-- Claim C9: during fee aggregation every active token contributes exactly
one entry (the batch never aborts); a token whose platform lookup throws
contributes zero for the platform side; a lookup above the sanity ceiling is
zeroed, so it is excluded from that token's total (and hence from the grand
total, which is exactly the sum of the per-token totals); and each token's
entry depends only on the lookups for that token, so one bad token cannot
affect any other entry. -/
theorem aggregateOnChainFees_robust (env : ClankerEnv) (db : DbState)
    (pw : String) :
    ((aggregateOnChainFees env db pw).tokens =
      (getAllTokens db "active").map (aggEntryFor env pw)) ∧
    ((aggregateOnChainFees env db pw).totalWei =
      (((aggregateOnChainFees env db pw).tokens).map AggEntry.totalWeth).sum) ∧
    (∀ t : TokenRec, ∀ msg,
      env.availableRewards t.tokenAddress pw = .error msg →
      (aggEntryFor env pw t).platformWeth = 0) ∧
    (∀ t : TokenRec, ∀ amt,
      env.availableRewards t.tokenAddress pw = .ok amt →
      MAX_SANE_REWARD < amt →
      (aggEntryFor env pw t).platformWeth = 0 ∧
      (aggEntryFor env pw t).totalWeth = (aggEntryFor env pw t).clientWeth) ∧
    (∀ env2 : ClankerEnv, ∀ t : TokenRec,
      env2.availableRewards t.tokenAddress pw =
        env.availableRewards t.tokenAddress pw →
      env2.availableRewards t.tokenAddress t.clientWallet =
        env.availableRewards t.tokenAddress t.clientWallet →
      aggEntryFor env2 pw t = aggEntryFor env pw t) := by
  refine ⟨rfl, rfl, ?_, ?_, ?_⟩
  · intro t msg h
    simp [aggEntryFor, lookupOrZero, h, sanitizeReward]
  · intro t amt h hover
    have hp : (aggEntryFor env pw t).platformWeth = 0 := by
      simp [aggEntryFor, lookupOrZero, h, sanitizeReward, if_pos hover]
    refine ⟨hp, ?_⟩
    have : (aggEntryFor env pw t).totalWeth =
        (aggEntryFor env pw t).platformWeth + (aggEntryFor env pw t).clientWeth := rfl
    rw [this, hp, zero_add]
  · intro env2 t h1 h2
    unfold aggEntryFor lookupOrZero
    rw [h1, h2]

/-- Witness for C9: with the concrete stored token and an environment whose
lookups all throw, the token's platform contribution is zero. -/
theorem aggregateOnChainFees_robust_witness :
    (aggEntryFor envDown walletP tokenT).platformWeth = 0 :=
  (aggregateOnChainFees_robust envDown dbOne walletP).2.2.1 tokenT "rpc down" rfl

/-! ### Claim C4 -/

/-- The availability query of one asset leg appears in its trace for exactly
that asset and recipient — the query is made unconditionally. -/
theorem avail_mem_claimAssetFor (env : ClankerEnv) (a0 w a r : String) :
    ExtCall.avail a r ∈ (claimAssetFor env a0 w).2 ↔ (a = a0 ∧ r = w) := by
  unfold claimAssetFor
  cases henv : env.availableRewards a0 w with
  | error m => simp
  | ok amt =>
    dsimp only
    by_cases hpos : 0 < amt
    · rw [if_pos hpos]
      cases env.claimRewards a0 w <;> simp
    · rw [if_neg hpos]
      simp

/-- The claim call of one asset leg appears in its trace exactly when the
availability query succeeded with a positive amount. -/
theorem claim_mem_claimAssetFor (env : ClankerEnv) (a0 w a r : String) :
    ExtCall.claim a r ∈ (claimAssetFor env a0 w).2 ↔
      (a = a0 ∧ r = w ∧
        ∃ amt, env.availableRewards a r = .ok amt ∧ 0 < amt) := by
  unfold claimAssetFor
  cases henv : env.availableRewards a0 w with
  | error m =>
    simp only [List.mem_singleton]
    constructor
    · intro h; exact absurd h (by simp)
    · rintro ⟨rfl, rfl, amt, hok, hpos⟩
      rw [henv] at hok
      exact (Except.noConfusion hok)
  | ok amt0 =>
    dsimp only
    by_cases hpos : 0 < amt0
    · rw [if_pos hpos]
      cases env.claimRewards a0 w <;>
      · simp only [List.mem_cons, List.mem_singleton]
        constructor
        · intro h
          have hh : a = a0 ∧ r = w := by
            rcases h with h | h
            · exact absurd h (by simp)
            · simp at h
              exact ⟨h.1, h.2⟩
          obtain ⟨rfl, rfl⟩ := hh
          exact ⟨rfl, rfl, amt0, henv, hpos⟩
        · rintro ⟨rfl, rfl, _, _, _⟩
          simp
    · rw [if_neg hpos]
      simp only [List.mem_singleton]
      constructor
      · intro h; exact absurd h (by simp)
      · rintro ⟨rfl, rfl, amt, hok, hp⟩
        rw [henv] at hok
        injection hok with he
        rw [← he] at hp
        exact absurd hp hpos

/-- Per-wallet trace: the issued asset and the paired WETH asset are each
queried. -/
theorem avail_mem_claimForWallet (env : ClankerEnv) (ta w a r : String) :
    ExtCall.avail a r ∈ (claimForWallet env ta w).2 ↔
      (r = w ∧ (a = ta ∨ a = WETH_BASE)) := by
  have htr : (claimForWallet env ta w).2 =
      (claimAssetFor env ta w).2 ++ (claimAssetFor env WETH_BASE w).2 := rfl
  rw [htr, List.mem_append, avail_mem_claimAssetFor, avail_mem_claimAssetFor]
  constructor
  · rintro (⟨rfl, rfl⟩ | ⟨rfl, rfl⟩)
    · exact ⟨rfl, Or.inl rfl⟩
    · exact ⟨rfl, Or.inr rfl⟩
  · rintro ⟨rfl, rfl | rfl⟩
    · exact Or.inl ⟨rfl, rfl⟩
    · exact Or.inr ⟨rfl, rfl⟩

/-- Per-wallet trace: a claim call is made exactly for each asset whose
availability query returned a positive amount. -/
theorem claim_mem_claimForWallet (env : ClankerEnv) (ta w a r : String) :
    ExtCall.claim a r ∈ (claimForWallet env ta w).2 ↔
      (r = w ∧ (a = ta ∨ a = WETH_BASE) ∧
        ∃ amt, env.availableRewards a r = .ok amt ∧ 0 < amt) := by
  have htr : (claimForWallet env ta w).2 =
      (claimAssetFor env ta w).2 ++ (claimAssetFor env WETH_BASE w).2 := rfl
  rw [htr, List.mem_append, claim_mem_claimAssetFor, claim_mem_claimAssetFor]
  constructor
  · rintro (⟨rfl, rfl, hP⟩ | ⟨rfl, rfl, hP⟩)
    · exact ⟨rfl, Or.inl rfl, hP⟩
    · exact ⟨rfl, Or.inr rfl, hP⟩
  · rintro ⟨rfl, rfl | rfl, hP⟩
    · exact Or.inl ⟨rfl, rfl, hP⟩
    · exact Or.inr ⟨rfl, rfl, hP⟩

/-- Claim C4: a run of the full claim function queries the claimable amount on
the issued asset and on the paired asset, independently, for the platform
recipient and — exactly when the stored requester wallet differs from the
platform's — for the requester recipient; and it invokes the external claim
call precisely for those queries that returned a positive amount. -/
theorem claimFees_calls_characterization (env : ClankerEnv) (db : DbState)
    (ta pw : String) :
    (∀ a r, ExtCall.avail a r ∈ (claimFeesFull env db ta pw).2 ↔
      (r ∈ activeClaimRecipients db ta pw ∧ (a = ta ∨ a = WETH_BASE))) ∧
    (∀ a r, ExtCall.claim a r ∈ (claimFeesFull env db ta pw).2 ↔
      (r ∈ activeClaimRecipients db ta pw ∧ (a = ta ∨ a = WETH_BASE) ∧
        ∃ amt, env.availableRewards a r = .ok amt ∧ 0 < amt)) := by
  have htr : (claimFeesFull env db ta pw).2 =
      (claimForWallet env ta pw).2 ++ (clientLeg env db ta pw).2 := rfl
  constructor
  · intro a r
    rw [htr, List.mem_append, avail_mem_claimForWallet]
    unfold clientLeg activeClaimRecipients
    cases hcw : (getTokenByAddress db ta).map TokenRec.clientWallet with
    | none =>
      dsimp only
      constructor
      · rintro (⟨rfl, hA⟩ | h)
        · exact ⟨List.mem_singleton.mpr rfl, hA⟩
        · exact absurd h (List.not_mem_nil _)
      · rintro ⟨hr, hA⟩
        rw [List.mem_singleton] at hr
        subst hr
        exact Or.inl ⟨rfl, hA⟩
    | some cw =>
      dsimp only
      by_cases hcl : cw ≠ "" ∧ cw ≠ pw
      · rw [if_pos hcl, if_pos hcl, avail_mem_claimForWallet]
        simp only [List.mem_cons, List.mem_singleton, List.not_mem_nil,
          or_false]
        constructor
        · rintro (⟨rfl, hA⟩ | ⟨rfl, hA⟩)
          · exact ⟨Or.inl rfl, hA⟩
          · exact ⟨Or.inr rfl, hA⟩
        · rintro ⟨rfl | rfl, hA⟩
          · exact Or.inl ⟨rfl, hA⟩
          · exact Or.inr ⟨rfl, hA⟩
      · rw [if_neg hcl, if_neg hcl]
        dsimp only
        constructor
        · rintro (⟨rfl, hA⟩ | h)
          · exact ⟨List.mem_singleton.mpr rfl, hA⟩
          · exact absurd h (List.not_mem_nil _)
        · rintro ⟨hr, hA⟩
          rw [List.mem_singleton] at hr
          subst hr
          exact Or.inl ⟨rfl, hA⟩
  · intro a r
    rw [htr, List.mem_append, claim_mem_claimForWallet]
    unfold clientLeg activeClaimRecipients
    cases hcw : (getTokenByAddress db ta).map TokenRec.clientWallet with
    | none =>
      dsimp only
      constructor
      · rintro (⟨rfl, hA, hP⟩ | h)
        · exact ⟨List.mem_singleton.mpr rfl, hA, hP⟩
        · exact absurd h (List.not_mem_nil _)
      · rintro ⟨hr, hA, hP⟩
        rw [List.mem_singleton] at hr
        subst hr
        exact Or.inl ⟨rfl, hA, hP⟩
    | some cw =>
      dsimp only
      by_cases hcl : cw ≠ "" ∧ cw ≠ pw
      · rw [if_pos hcl, if_pos hcl, claim_mem_claimForWallet]
        simp only [List.mem_cons, List.mem_singleton, List.not_mem_nil,
          or_false]
        constructor
        · rintro (⟨rfl, hA, hP⟩ | ⟨rfl, hA, hP⟩)
          · exact ⟨Or.inl rfl, hA, hP⟩
          · exact ⟨Or.inr rfl, hA, hP⟩
        · rintro ⟨rfl | rfl, hA, hP⟩
          · exact Or.inl ⟨rfl, hA, hP⟩
          · exact Or.inr ⟨rfl, hA, hP⟩
      · rw [if_neg hcl, if_neg hcl]
        dsimp only
        constructor
        · rintro (⟨rfl, hA, hP⟩ | h)
          · exact ⟨List.mem_singleton.mpr rfl, hA, hP⟩
          · exact absurd h (List.not_mem_nil _)
        · rintro ⟨hr, hA, hP⟩
          rw [List.mem_singleton] at hr
          subst hr
          exact Or.inl ⟨rfl, hA, hP⟩

/-! ### Claim C5 -/

/-- Claim C5: over any token list and any per-token claim step (which may
throw), the loop of `claimAllFees` puts every token into exactly one of the
three result buckets — so their sizes sum to the number of tokens — and the
`errors` bucket lists, in iteration order, exactly the tokens whose step
threw, each paired with its message; `claimed` and `skipped` likewise collect
exactly the summary and null outcomes. A throwing token therefore never
aborts the processing of the remaining tokens. -/
theorem claimAll_partition
    (claimOne : DbState → String → Except String (Option FeeClaimResult × DbState))
    (tokens : List TokenRec) (db : DbState) :
    ((claimAllGo claimOne tokens db).1.1.length +
      (claimAllGo claimOne tokens db).1.2.1.length +
      (claimAllGo claimOne tokens db).1.2.2.length = tokens.length) ∧
    ((claimAllGo claimOne tokens db).1.2.2 =
      (runOutcomes claimOne tokens db).filterMap fun p =>
        match p.2 with
        | .error m => some (p.1, m)
        | _ => none) ∧
    ((claimAllGo claimOne tokens db).1.1 =
      (runOutcomes claimOne tokens db).filterMap fun p =>
        match p.2 with
        | .ok (some r) => some r
        | _ => none) ∧
    ((claimAllGo claimOne tokens db).1.2.1 =
      (runOutcomes claimOne tokens db).filterMap fun p =>
        match p.2 with
        | .ok none => some p.1
        | _ => none) := by
  induction tokens generalizing db with
  | nil => simp [claimAllGo, runOutcomes]
  | cons t rest ih =>
    simp only [claimAllGo, runOutcomes]
    cases hstep : claimOne db t.tokenAddress with
    | ok pr =>
      obtain ⟨oRes, db2⟩ := pr
      cases oRes with
      | some r =>
        dsimp only
        obtain ⟨ih1, ih2, ih3, ih4⟩ := ih db2
        refine ⟨?_, ?_, ?_, ?_⟩
        · simp only [List.length_cons]
          omega
        · simp [List.filterMap_cons, ih2]
        · simp [List.filterMap_cons, ih3]
        · simp [List.filterMap_cons, ih4]
      | none =>
        dsimp only
        obtain ⟨ih1, ih2, ih3, ih4⟩ := ih db2
        refine ⟨?_, ?_, ?_, ?_⟩
        · simp only [List.length_cons]
          omega
        · simp [List.filterMap_cons, ih2]
        · simp [List.filterMap_cons, ih3]
        · simp [List.filterMap_cons, ih4]
    | error msg =>
      dsimp only
      obtain ⟨ih1, ih2, ih3, ih4⟩ := ih db
      refine ⟨?_, ?_, ?_, ?_⟩
      · simp only [List.length_cons]
        omega
      · simp [List.filterMap_cons, ih2]
      · simp [List.filterMap_cons, ih3]
      · simp [List.filterMap_cons, ih4]

end ConLaunch
